import Mathlib

/-!
Shallow embedding of the Zone per-domain time-budget system.

Server side (Express + Mongoose, files src/server and src/unnamed):
the user document with its rules, active unlocks and pending OTP; the
heartbeat (ingestion) handler, the config (decision) handler, the rules
replacement handler and the unlock request/verify handlers.

Client side (src/extension/contentScript.js): the local blocking check,
the 429 backoff bookkeeping of apiRequest and the request throttle of
checkAndBlock.

Conventions of the embedding: JavaScript numbers that hold minutes or
seconds are rationals; epoch-millisecond timestamps are integers;
Date.toDateString equality is modelled as equality of the floor day
index of the epoch milliseconds; nullable fields are Option.
-/

namespace Zone

/-! ### String literals used by definitions and witnesses -/

def wwwDot : String := "www."

def dotStr : String := "."

/-! ### Domain normalization (domain.toLowerCase().replace(/^www\./, ""))

String primitives are modelled over the character list underlying the
string, so every definition evaluates by kernel reduction. -/

def toLowerStr (s : String) : String :=
  ⟨s.data.map Char.toLower⟩

def strStartsWith (s p : String) : Bool :=
  p.data.isPrefixOf s.data

def strEndsWith (s p : String) : Bool :=
  p.data.isSuffixOf s.data

def strDrop (s : String) (n : Nat) : String :=
  ⟨s.data.drop n⟩

def strIsEmpty (s : String) : Bool :=
  s.data.isEmpty

def stripWww (s : String) : String :=
  if strStartsWith s wwwDot then strDrop s 4 else s

def normalizeDomain (s : String) : String :=
  stripWww (toLowerStr s)

/-! ### Calendar days: toDateString() equality modelled as same floor day -/

def msPerDay : Int := 86400000

def dayOf (t : Int) : Int :=
  t / msPerDay

/-! ### Data model (src/server/models/User.js) -/

structure Rule where
  domain : String
  dailyLimit : ℚ
  usedToday : ℚ
  lastReset : Option Int
  deriving Repr, DecidableEq

structure Unlock where
  domain : String
  expiresAt : Int
  deriving Repr, DecidableEq

structure PendingOTP where
  otp : String
  domain : String
  createdAt : Int
  deriving Repr, DecidableEq

structure User where
  email : Option String
  rules : List Rule
  activeUnlocks : List Unlock
  pendingOTP : Option PendingOTP
  lastHeartbeat : Option Int
  deriving Repr, DecidableEq

/-! ### Heartbeat handler (src/server/routes/heartbeat.js) -/

/-- Validation of the seconds field (src/server/middleware/validation.js,
secondsValidation: isNumeric, isFloat with min 0). -/
def validSeconds (s : ℚ) : Bool :=
  decide (0 ≤ s)

/-- Daily reset followed by the increment, as applied to the matched rule:
if lastReset is absent or not from the current calendar day, usedToday is
zeroed and lastReset set to now; then usedToday is increased by secs / 60. -/
def heartbeatRule (now : Int) (secs : ℚ) (r : Rule) : Rule :=
  let r1 :=
    match r.lastReset with
    | none => { r with usedToday := 0, lastReset := some now }
    | some t =>
      if dayOf t = dayOf now then r
      else { r with usedToday := 0, lastReset := some now }
  { r1 with usedToday := r1.usedToday + secs / 60 }

/-- Rule lookup predicate of the heartbeat handler: the rule's normalized
domain equals the normalized request domain. -/
def ruleMatchesExact (domainClean : String) (r : Rule) : Bool :=
  normalizeDomain r.domain == domainClean

/-- Apply f to the first element satisfying p, leaving the rest unchanged:
the in-place mutation of the rule found by Array.prototype.find. -/
def updateFirst (p : α → Bool) (f : α → α) : List α → List α
  | [] => []
  | x :: xs => if p x then f x :: xs else x :: updateFirst p f xs

/-- The heartbeat POST handler for a known user: find the rule whose
normalized domain matches, apply reset-then-increment to it, and record
lastHeartbeat; with no matching rule only lastHeartbeat is recorded. -/
def heartbeat (u : User) (domain : String) (secs : ℚ) (now : Int) : User :=
  let domainClean := normalizeDomain domain
  if u.rules.any (ruleMatchesExact domainClean) then
    { u with
      rules := updateFirst (ruleMatchesExact domainClean) (heartbeatRule now secs) u.rules,
      lastHeartbeat := some now }
  else
    { u with lastHeartbeat := some now }

/-- Fold a list of (now, seconds) heartbeat reports into a rule. -/
def runHeartbeats (r : Rule) (hbs : List (Int × ℚ)) : Rule :=
  hbs.foldl (fun acc p => heartbeatRule p.1 p.2 acc) r

/-! ### Config handler (src/unnamed/part_004, the decision endpoint) -/

structure Decision where
  domain : String
  dailyLimit : ℚ
  usedToday : ℚ
  block : Bool
  remaining : ℚ
  deriving Repr, DecidableEq

/-- One active-unlock test of the config handler: the unlock's normalized
domain equals the rule's normalized domain and expiresAt is strictly in
the future. -/
def unlockActiveFor (now : Int) (domainClean : String) (u : Unlock) : Bool :=
  normalizeDomain u.domain == domainClean && decide (now < u.expiresAt)

/-- The per-rule tuple computed by the config handler. -/
def ruleDecision (unlocks : List Unlock) (now : Int) (r : Rule) : Decision :=
  let domainClean := normalizeDomain r.domain
  let unlocked := unlocks.any (unlockActiveFor now domainClean)
  let usedToday := r.usedToday
  let limit := r.dailyLimit
  let shouldBlock := decide (0 < limit) && decide (limit ≤ usedToday) && !unlocked
  { domain := r.domain
    dailyLimit := limit
    usedToday := usedToday
    block := shouldBlock
    remaining := max 0 (limit - usedToday) }

/-- The config POST handler for a known user: purge expired unlocks, then
map every rule to its decision tuple. Returns the updated user document
and the response rules array. -/
def configHandler (u : User) (now : Int) : User × List Decision :=
  let purged := u.activeUnlocks.filter (fun ul => decide (now < ul.expiresAt))
  let u1 := { u with activeUnlocks := purged }
  (u1, u1.rules.map (ruleDecision purged now))

/-! ### Rules replacement (src/unnamed/part_005, auth /rules POST handler) -/

structure NewRule where
  domain : String
  dailyLimit : ℚ
  deriving Repr, DecidableEq

/-- Full rule-set replacement: each incoming rule takes its submitted
domain and dailyLimit; usedToday and lastReset are carried over from the
existing rule with the exact same domain when one exists, else they start
at 0 and now. -/
def replaceRules (now : Int) (existing : List Rule) (newRules : List NewRule) : List Rule :=
  newRules.map fun nr =>
    match existing.find? (fun r2 => r2.domain == nr.domain) with
    | some ex =>
      { domain := nr.domain, dailyLimit := nr.dailyLimit
        usedToday := ex.usedToday, lastReset := ex.lastReset }
    | none =>
      { domain := nr.domain, dailyLimit := nr.dailyLimit
        usedToday := 0, lastReset := some now }

/-- The auth /rules handler on the user document. -/
def replaceRulesUser (u : User) (newRules : List NewRule) (now : Int) : User :=
  { u with rules := replaceRules now u.rules newRules }

/-- The auth /email handler on the user document (sets a validated,
hence present, email). -/
def setEmail (u : User) (e : String) : User :=
  { u with email := some e }

/-- A freshly created user document (auth /init, User.create with schema
defaults: no email, no rules, no unlocks, no pending OTP). -/
def freshUser (now : Int) : User :=
  { email := none, rules := [], activeUnlocks := [], pendingOTP := none
    lastHeartbeat := some now }

/-! ### Unlock subsystem (src/server/routes/unlock.js) -/

inductive RequestResult where
  | noEmail
  | alreadySent
  | issued (otp : String) (sent : Bool)
  deriving Repr, DecidableEq

/-- The unlock /request handler for a known user. Parameters: expiryMs is
the configured OTP expiry window in ms, newOtp the code generateOTP would
produce, emailOk whether sendMail succeeds. Fails when no email is
configured; returns success without touching state while an unexpired
pending code exists; otherwise stores a new pending code for the target
domain and reports the delivery outcome. -/
def requestOtp (expiryMs : Int) (newOtp : String) (emailOk : Bool)
    (u : User) (domain : String) (now : Int) : User × RequestResult :=
  match u.email with
  | none => (u, .noEmail)
  | some _ =>
    match u.pendingOTP with
    | some p =>
      if now - p.createdAt < expiryMs then
        (u, .alreadySent)
      else
        ({ u with pendingOTP := some ⟨newOtp, domain, now⟩ }, .issued newOtp emailOk)
    | none =>
      ({ u with pendingOTP := some ⟨newOtp, domain, now⟩ }, .issued newOtp emailOk)

inductive VerifyResult where
  | noPending
  | expired
  | invalidCode
  | ok (domain : String) (expiresAt : Int)
  deriving Repr, DecidableEq

/-- The unlock /verify handler for a known user. Parameters: expiryMs the
OTP expiry window, durMs the unlock duration, both in ms. Forbidden when
no pending code exists (a falsy stored code string counts as absent, per
the handler's truthiness guard), when the code's age exceeds expiryMs
(discarding the pending code), or when the submitted code differs; on a
match appends an ActiveOverride for the pending code's domain expiring at
now + durMs and clears the pending code. -/
def verifyOtp (expiryMs durMs : Int) (u : User) (otp : String) (now : Int) :
    User × VerifyResult :=
  match u.pendingOTP with
  | none => (u, .noPending)
  | some p =>
    if p.otp = "" then (u, .noPending)
    else if expiryMs < now - p.createdAt then
      ({ u with pendingOTP := none }, .expired)
    else if p.otp ≠ otp then (u, .invalidCode)
    else
      ({ u with
          activeUnlocks := u.activeUnlocks ++ [⟨p.domain, now + durMs⟩]
          pendingOTP := none },
        .ok p.domain (now + durMs))

/-! ### Reachable user states

The server mutates a user document only through the handlers above; a
reachable state is one produced from a fresh document by any sequence of
them. -/

inductive Reachable : User → Prop
  | fresh (now : Int) : Reachable (freshUser now)
  | email {u : User} (e : String) : Reachable u → Reachable (setEmail u e)
  | replace {u : User} (nrs : List NewRule) (now : Int) :
      Reachable u → Reachable (replaceRulesUser u nrs now)
  | hb {u : User} (domain : String) (secs : ℚ) (now : Int) :
      Reachable u → Reachable (heartbeat u domain secs now)
  | cfg {u : User} (now : Int) : Reachable u → Reachable (configHandler u now).1
  | request {u : User} (expiryMs : Int) (newOtp : String) (emailOk : Bool)
      (domain : String) (now : Int) :
      Reachable u → Reachable (requestOtp expiryMs newOtp emailOk u domain now).1
  | verify {u : User} (expiryMs durMs : Int) (otp : String) (now : Int) :
      Reachable u → Reachable (verifyOtp expiryMs durMs u otp now).1

/-! ### Client local blocking check (src/extension/contentScript.js,
checkLocalRules) -/

structure LocalRule where
  domain : String
  dailyLimit : ℚ
  usedToday : ℚ
  block : Bool
  deriving Repr, DecidableEq

/-- The rule-matching predicate of checkLocalRules: rules without a domain
are skipped; otherwise exact match or dot-suffix match on the normalized
domains. -/
def localRuleMatches (hostnameLower : String) (r : LocalRule) : Bool :=
  if strIsEmpty r.domain then false
  else
    let domainLower := normalizeDomain r.domain
    hostnameLower == domainLower || strEndsWith hostnameLower (dotStr ++ domainLower)

/-- checkLocalRules: find the first matching local rule; when it has a
positive dailyLimit and (its block flag is set or usedToday has reached
dailyLimit) the page is blocked (result true); in every other case the
page is left alone (result false). A pure function of the snapshot: no
network is consulted. -/
def checkLocalRules (currentDomain : String) (rules : List LocalRule) : Bool :=
  if rules.isEmpty then false
  else
    let hostnameLower := normalizeDomain currentDomain
    match rules.find? (localRuleMatches hostnameLower) with
    | none => false
    | some rule =>
      if 0 < rule.dailyLimit then
        rule.block || decide (rule.dailyLimit ≤ rule.usedToday)
      else false

/-! ### Client backoff state (src/extension/contentScript.js, apiRequest) -/

structure BackoffState where
  consecutive429 : Nat
  backoffUntil : Int
  deriving Repr, DecidableEq

/-- The 429/ok bookkeeping of apiRequest: a 429 response increments the
consecutive-429 counter and sets backoffUntil to now plus
min(5000 * counter, 30000) ms; an ok (2xx) response resets counter and
backoffUntil; any other response leaves both unchanged. -/
def apiRequestBackoff (st : BackoffState) (now : Int) (status : Nat) : BackoffState :=
  if status = 429 then
    { consecutive429 := st.consecutive429 + 1
      backoffUntil := now + Int.ofNat (min (5000 * (st.consecutive429 + 1)) 30000) }
  else if 200 ≤ status ∧ status < 300 then
    { consecutive429 := 0, backoffUntil := 0 }
  else st

/-- Fold a list of 429 response times into the backoff state. -/
def foldThrottle (st : BackoffState) (ts : List Int) : BackoffState :=
  ts.foldl (fun s t => apiRequestBackoff s t 429) st

/-! ### Client request throttle (src/extension/contentScript.js,
checkAndBlock) -/

def MIN_REQUEST_INTERVAL : Int := 2000

def CONFIG_CACHE_DURATION : Int := 30000

inductive RespOutcome where
  | throttled
  | okResp
  | errResp
  deriving Repr, DecidableEq

structure EngineState where
  lastRequestTime : Int
  backoffUntil : Int
  consecutive429 : Nat
  configCache : Bool
  configCacheTime : Int
  deriving Repr, DecidableEq

/-- A trigger of checkAndBlock (page load, periodic check, visibility
change, pushed snapshot): its time, whether the local check already
blocked, and the outcome the network would return were a request issued. -/
structure Trigger where
  now : Int
  localBlocked : Bool
  resp : RespOutcome
  deriving Repr, DecidableEq

/-- The cache-freshness gate: a cached config younger than
CONFIG_CACHE_DURATION. -/
def cacheFresh (st : EngineState) (now : Int) : Bool :=
  st.configCache && decide (now - CONFIG_CACHE_DURATION < st.configCacheTime)

/-- Effect of the response on the engine state once a request was issued:
429 updates the backoff fields; ok resets them and caches the response at
the issue time; a transport error changes nothing. lastRequestTime is
never touched here. -/
def applyResp (st : EngineState) (now : Int) : RespOutcome → EngineState
  | .throttled =>
    { st with
      consecutive429 := st.consecutive429 + 1
      backoffUntil := now + Int.ofNat (min (5000 * (st.consecutive429 + 1)) 30000) }
  | .okResp =>
    { st with consecutive429 := 0, backoffUntil := 0
              configCache := true, configCacheTime := now }
  | .errResp => st

/-- One run of checkAndBlock: a locally blocked page, an active backoff
hold, a trigger within MIN_REQUEST_INTERVAL of the last issued request, or
a fresh cache, all answer without a network call; otherwise a request is
issued (lastRequestTime := now, recorded as the issue time) and the
response effect is applied. -/
def checkAndBlockStep (st : EngineState) (tr : Trigger) : EngineState × Option Int :=
  if tr.localBlocked then (st, none)
  else if tr.now < st.backoffUntil then (st, none)
  else if tr.now - st.lastRequestTime < MIN_REQUEST_INTERVAL then (st, none)
  else if cacheFresh st tr.now then (st, none)
  else
    let st1 := { st with lastRequestTime := tr.now }
    (applyResp st1 tr.now tr.resp, some tr.now)

/-- Process a sequence of triggers, collecting the times at which Decision
Endpoint requests were actually issued. -/
def engineRun (st : EngineState) : List Trigger → EngineState × List Int
  | [] => (st, [])
  | tr :: trs =>
    let step := checkAndBlockStep st tr
    let rest := engineRun step.1 trs
    match step.2 with
    | none => rest
    | some t => (rest.1, t :: rest.2)

/-! ### Concrete data for witnesses and counterexamples -/

def exampleCom : String := "example.com"

def newsExample : String := "news.example"

def emailEx : String := "alice@example.org"

def otpEx : String := "123456"

def ruleEx : Rule :=
  { domain := exampleCom, dailyLimit := 10, usedToday := 12, lastReset := some 0 }

def userEx : User :=
  { email := none, rules := [ruleEx], activeUnlocks := [], pendingOTP := none
    lastHeartbeat := none }

/-- A concrete reachable user holding a live pending code. -/
def userPending : User :=
  (requestOtp 300000 otpEx true (setEmail (freshUser 0) emailEx) exampleCom 100).1

/-- The backoff state after three consecutive 429 responses at time 0,
starting from a fresh counter. -/
def backoff3 : BackoffState :=
  foldThrottle ⟨0, 0⟩ [0, 0, 0]

/-- A local rule with the block flag set but no daily limit. -/
def blockedNoLimitRule : LocalRule :=
  { domain := exampleCom, dailyLimit := 0, usedToday := 0, block := true }

/-! ## Helper lemmas -/

/-- Filtering the unlock list down to unexpired entries does not change
whether an active unlock exists, because activity already requires an
unexpired entry. -/
theorem any_filter_unexpired (l : List Unlock) (now : Int) (dc : String) :
    (l.filter (fun ul => decide (now < ul.expiresAt))).any (unlockActiveFor now dc)
      = l.any (unlockActiveFor now dc) := by
  induction l with
  | nil => rfl
  | cons x xs ih =>
    by_cases h : now < x.expiresAt
    · simp [List.filter_cons, h, ih]
    · simp [List.filter_cons, h, ih, unlockActiveFor]

/-! ## C1: decision endpoint -/

/-- Claim C1: for a known user the config endpoint returns one entry per rule;
each entry carries the rule's domain, limit and usedToday, has
remainingMinutes = max 0 (limit - used), and has shouldBlock true exactly
when the limit is positive, usage has reached it, and no active unlock
for the rule's normalized domain has expiresAt strictly in the future. -/
theorem config_decisions_spec (u : User) (now : Int) :
    (configHandler u now).2.length = u.rules.length ∧
    ∀ (i : ℕ) (r : Rule), u.rules[i]? = some r →
      ∃ d : Decision, (configHandler u now).2[i]? = some d ∧
        d.domain = r.domain ∧ d.dailyLimit = r.dailyLimit ∧
        d.usedToday = r.usedToday ∧
        d.remaining = max 0 (r.dailyLimit - r.usedToday) ∧
        (d.block = true ↔
          0 < r.dailyLimit ∧ r.dailyLimit ≤ r.usedToday ∧
          ¬ ∃ ul ∈ u.activeUnlocks,
              normalizeDomain ul.domain = normalizeDomain r.domain ∧
              now < ul.expiresAt) := by
  constructor
  · simp [configHandler]
  · intro i r hr
    refine ⟨ruleDecision (u.activeUnlocks.filter (fun ul => decide (now < ul.expiresAt))) now r,
      ?_, rfl, rfl, rfl, rfl, ?_⟩
    · simp [configHandler, hr]
    · unfold ruleDecision
      simp only [Bool.and_eq_true, Bool.not_eq_eq_eq_not, Bool.not_true, decide_eq_true_eq,
        any_filter_unexpired, Bool.not_eq_true', List.any_eq_false, unlockActiveFor,
        Bool.and_eq_false_iff, decide_eq_false_iff_not, beq_iff_eq, not_exists, not_and]
      tauto

/-- Witness for C1: on a concrete user whose single rule is over its
limit and has no unlock, the returned entry blocks and has remaining 0. -/
theorem config_decisions_spec_witness :
    ∃ d : Decision, (configHandler userEx 5).2[0]? = some d ∧
      d.block = true ∧ d.remaining = 0 := by
  obtain ⟨-, h⟩ := config_decisions_spec userEx 5
  obtain ⟨d, hd, -, -, -, hrem, hblock⟩ := h 0 ruleEx rfl
  refine ⟨d, hd, ?_, ?_⟩
  · refine hblock.mpr ⟨?_, ?_, ?_⟩
    · show (0 : ℚ) < ruleEx.dailyLimit
      norm_num [ruleEx]
    · show ruleEx.dailyLimit ≤ ruleEx.usedToday
      norm_num [ruleEx]
    · simp [userEx]
  · rw [hrem]
    norm_num [ruleEx]

/-! ## C2: daily reset before increment -/

/-- Applying updateFirst across a split whose first matching element is r
rewrites exactly r. -/
theorem updateFirst_append (p : α → Bool) (f : α → α) (pre post : List α) (r : α)
    (hpre : ∀ x ∈ pre, p x = false) (hr : p r = true) :
    updateFirst p f (pre ++ r :: post) = pre ++ f r :: post := by
  induction pre with
  | nil => simp [updateFirst, hr]
  | cons x xs ih =>
    have hx : p x = false := hpre x (by simp)
    simp only [List.cons_append, updateFirst, hx, Bool.false_eq_true, if_false,
      List.cons.injEq, true_and]
    exact ih fun y hy => hpre y (by simp [hy])

/-- Claim C2: a heartbeat for a known user whose normalized domain matches a
rule whose lastReset is absent or not from the current calendar day
zeroes usedToday and stamps lastReset = now before adding, leaving the
rule with usedToday = seconds / 60; all other rules are untouched. -/
theorem heartbeat_reset_spec (u : User) (domain : String) (secs : ℚ) (now : Int)
    (pre post : List Rule) (r : Rule)
    (hsplit : u.rules = pre ++ r :: post)
    (hpre : ∀ r2 ∈ pre, ruleMatchesExact (normalizeDomain domain) r2 = false)
    (hr : ruleMatchesExact (normalizeDomain domain) r = true)
    (hstale : ∀ t, r.lastReset = some t → dayOf t ≠ dayOf now) :
    (heartbeat u domain secs now).rules =
      pre ++ { r with usedToday := secs / 60, lastReset := some now } :: post := by
  have hany : (pre ++ r :: post).any (ruleMatchesExact (normalizeDomain domain)) = true := by
    simp only [List.any_append, List.any_cons, hr, Bool.true_or, Bool.or_true]
  unfold heartbeat
  simp only [hsplit, hany, if_true]
  rw [updateFirst_append _ _ _ _ _ hpre hr]
  have hrule : heartbeatRule now secs r =
      { r with usedToday := secs / 60, lastReset := some now } := by
    unfold heartbeatRule
    cases hcase : r.lastReset with
    | none => simp
    | some t =>
      have hne := hstale t hcase
      simp [hne]
  rw [hrule]

/-- Witness for C2: a rule last reset on day 0 receives a 90-second
heartbeat on a later day; usedToday becomes 1.5 minutes, not 13.5. -/
theorem heartbeat_reset_spec_witness :
    (heartbeat userEx exampleCom 90 msPerDay).rules =
      [{ ruleEx with usedToday := 3 / 2, lastReset := some msPerDay }] := by
  have h := heartbeat_reset_spec userEx exampleCom 90 msPerDay [] [] ruleEx rfl
    (by intro r2 hr2; simp at hr2) (by decide)
    (by intro t ht
        have h0 : (0 : Int) = t := by simpa [ruleEx] using ht
        subst h0
        decide)
  rw [h]
  norm_num

/-! ## C3: same-day additivity of ingestion -/

/-- Heartbeats reported on the calendar day of the rule's lastReset never
reset: they only accumulate, and lastReset is untouched. -/
theorem runHeartbeats_sameday (d : Int) :
    ∀ (hbs : List (Int × ℚ)) (r : Rule) (t0 : Int),
      r.lastReset = some t0 → dayOf t0 = dayOf d →
      (∀ p ∈ hbs, dayOf p.1 = dayOf d) →
      (runHeartbeats r hbs).usedToday = r.usedToday + (hbs.map Prod.snd).sum / 60 ∧
      (runHeartbeats r hbs).lastReset = some t0 := by
  intro hbs
  induction hbs with
  | nil =>
    intro r t0 h1 h2 h3
    simp [runHeartbeats, h1]
  | cons p ps ih =>
    intro r t0 h1 h2 h3
    have hstep : heartbeatRule p.1 p.2 r = { r with usedToday := r.usedToday + p.2 / 60 } := by
      unfold heartbeatRule
      have hpd : dayOf p.1 = dayOf d := h3 p (by simp)
      simp [h1, h2, hpd]
    have hrun : runHeartbeats r (p :: ps) = runHeartbeats (heartbeatRule p.1 p.2 r) ps := rfl
    rw [hrun, hstep]
    have := ih { r with usedToday := r.usedToday + p.2 / 60 } t0 h1 h2
      (fun q hq => h3 q (by simp [hq]))
    rw [this.1]
    refine ⟨?_, this.2⟩
    simp only [List.map_cons, List.sum_cons]
    rw [add_assoc, div_add_div_same]

/-- Claim C3: a nonempty sequence of valid same-day heartbeats applied to a
rule whose lastReset predates that day leaves usedToday equal to the sum
of the reported seconds divided by 60; the result is invariant under
reordering of the reports (so duplicates count twice and order is
irrelevant). -/
theorem heartbeat_sum_spec (r : Rule) (d : Int) (hbs : List (Int × ℚ))
    (hstale : ∀ t, r.lastReset = some t → dayOf t ≠ dayOf d)
    (hday : ∀ p ∈ hbs, dayOf p.1 = dayOf d)
    (_hval : ∀ p ∈ hbs, validSeconds p.2 = true)
    (hne : hbs ≠ []) :
    (runHeartbeats r hbs).usedToday = (hbs.map Prod.snd).sum / 60 ∧
    ∀ hbs2, List.Perm hbs hbs2 →
      (runHeartbeats r hbs2).usedToday = (runHeartbeats r hbs).usedToday := by
  have main : ∀ (l : List (Int × ℚ)), l ≠ [] → (∀ p ∈ l, dayOf p.1 = dayOf d) →
      (runHeartbeats r l).usedToday = (l.map Prod.snd).sum / 60 := by
    intro l hlne hlday
    match l with
    | [] => exact absurd rfl hlne
    | p :: ps =>
      have hpd : dayOf p.1 = dayOf d := hlday p (by simp)
      have hstep : heartbeatRule p.1 p.2 r =
          { r with usedToday := 0 + p.2 / 60, lastReset := some p.1 } := by
        unfold heartbeatRule
        cases hcase : r.lastReset with
        | none => simp
        | some t =>
          have hne2 : ¬ dayOf t = dayOf p.1 := by
            rw [hpd]
            exact hstale t hcase
          simp [hne2]
      have hrun : runHeartbeats r (p :: ps) = runHeartbeats (heartbeatRule p.1 p.2 r) ps := rfl
      rw [hrun, hstep]
      have := runHeartbeats_sameday d ps
        { r with usedToday := 0 + p.2 / 60, lastReset := some p.1 } p.1 rfl hpd
        (fun q hq => hlday q (by simp [hq]))
      rw [this.1]
      simp only [List.map_cons, List.sum_cons]
      rw [zero_add, div_add_div_same]
  refine ⟨main hbs hne hday, ?_⟩
  intro hbs2 hperm
  have hne2 : hbs2 ≠ [] := by
    intro h
    subst h
    exact hne (List.Perm.eq_nil hperm)
  have hday2 : ∀ p ∈ hbs2, dayOf p.1 = dayOf d := fun p hp =>
    hday p ((List.Perm.mem_iff hperm).mpr hp)
  rw [main hbs hne hday, main hbs2 hne2 hday2]
  have : List.Perm (hbs.map Prod.snd) (hbs2.map Prod.snd) := List.Perm.map Prod.snd hperm
  rw [List.Perm.sum_eq this]

/-- Witness for C3: reports of 30, 20 and 20 seconds on day one after a
day-zero reset total 70 / 60 minutes, in either order. -/
theorem heartbeat_sum_spec_witness :
    (runHeartbeats ruleEx [(msPerDay, 30), (msPerDay + 1, 20), (msPerDay + 2, 20)]).usedToday
      = 7 / 6 ∧
    (runHeartbeats ruleEx [(msPerDay + 2, 20), (msPerDay, 30), (msPerDay + 1, 20)]).usedToday
      = (runHeartbeats ruleEx [(msPerDay, 30), (msPerDay + 1, 20), (msPerDay + 2, 20)]).usedToday := by
  have h := heartbeat_sum_spec ruleEx msPerDay
    [(msPerDay, 30), (msPerDay + 1, 20), (msPerDay + 2, 20)]
    (by intro t ht
        have h0 : (0 : Int) = t := by simpa [ruleEx] using ht
        subst h0
        decide)
    (by intro p hp
        fin_cases hp <;> decide)
    (by intro p hp
        fin_cases hp <;> decide)
    (by simp)
  refine ⟨?_, ?_⟩
  · rw [h.1]
    norm_num
  · exact h.2 _ (by decide)

/-! ## C10: same-day monotonicity of usedToday -/

/-- Claim C10: a heartbeat that passes input validation (seconds nonnegative)
and lands on the calendar day of the rule's lastReset never decreases
usedToday: ingestion only adds seconds / 60. -/
theorem heartbeat_monotone_spec (r : Rule) (secs : ℚ) (now t : Int)
    (hval : validSeconds secs = true)
    (hsame : r.lastReset = some t) (hday : dayOf t = dayOf now) :
    r.usedToday ≤ (heartbeatRule now secs r).usedToday := by
  have h0 : (0 : ℚ) ≤ secs := by
    simpa [validSeconds] using hval
  have hstep : heartbeatRule now secs r = { r with usedToday := r.usedToday + secs / 60 } := by
    unfold heartbeatRule
    simp [hsame, hday]
  rw [hstep]
  have : (0 : ℚ) ≤ secs / 60 := by positivity
  simp only
  linarith

/-- Witness for C10: a validated 30-second report on the day of the last
reset does not decrease the 12 minutes already used. -/
theorem heartbeat_monotone_spec_witness :
    ruleEx.usedToday ≤ (heartbeatRule 7 30 ruleEx).usedToday :=
  heartbeat_monotone_spec ruleEx 30 7 0 (by decide) rfl (by decide)

/-! ## C6: rule replacement preserves per-domain usage -/

/-- Claim C6: full rule replacement returns one rule per submitted rule; each
takes the submitted domain and dailyLimit, carries over usedToday and
lastReset from the existing rule with the same domain when there is one,
and starts at usedToday = 0 (lastReset = now) otherwise. -/
theorem replace_preserves_spec (now : Int) (existing : List Rule) (newRules : List NewRule) :
    (replaceRules now existing newRules).length = newRules.length ∧
    ∀ (i : ℕ) (nr : NewRule), newRules[i]? = some nr →
      ∃ r2 : Rule, (replaceRules now existing newRules)[i]? = some r2 ∧
        r2.domain = nr.domain ∧ r2.dailyLimit = nr.dailyLimit ∧
        (∀ ex : Rule, existing.find? (fun rr => rr.domain == nr.domain) = some ex →
          r2.usedToday = ex.usedToday ∧ r2.lastReset = ex.lastReset) ∧
        (existing.find? (fun rr => rr.domain == nr.domain) = none →
          r2.usedToday = 0 ∧ r2.lastReset = some now) := by
  constructor
  · simp [replaceRules]
  · intro i nr hnr
    cases hf : existing.find? (fun rr => rr.domain == nr.domain) with
    | none =>
      refine ⟨{ domain := nr.domain, dailyLimit := nr.dailyLimit
                usedToday := 0, lastReset := some now }, ?_, rfl, rfl, ?_, ?_⟩
      · simp only [replaceRules, List.getElem?_map, hnr, Option.map_some']
        rw [hf]
      · intro ex hex
        exact absurd hex (by simp)
      · intro _
        exact ⟨rfl, rfl⟩
    | some ex =>
      refine ⟨{ domain := nr.domain, dailyLimit := nr.dailyLimit
                usedToday := ex.usedToday, lastReset := ex.lastReset }, ?_, rfl, rfl, ?_, ?_⟩
      · simp only [replaceRules, List.getElem?_map, hnr, Option.map_some']
        rw [hf]
      · intro ex2 hex2
        injection hex2 with hex2
        subst hex2
        exact ⟨rfl, rfl⟩
      · intro hnone
        exact absurd hnone (by simp)

/-- Witness for C6: replacing the limit on the tracked domain keeps the
12 used minutes; a brand-new domain starts at zero. -/
theorem replace_preserves_spec_witness :
    ∃ r2 : Rule, (replaceRules 9 [ruleEx] [⟨exampleCom, 25⟩, ⟨newsExample, 5⟩])[0]? = some r2 ∧
      r2.dailyLimit = 25 ∧ r2.usedToday = 12 := by
  obtain ⟨-, h⟩ := replace_preserves_spec 9 [ruleEx] [⟨exampleCom, 25⟩, ⟨newsExample, 5⟩]
  obtain ⟨r2, hr2, -, hlim, hkeep, -⟩ := h 0 ⟨exampleCom, 25⟩ rfl
  have hfind : ([ruleEx].find? (fun rr => rr.domain == exampleCom)) = some ruleEx := by decide
  obtain ⟨hused, -⟩ := hkeep ruleEx hfind
  refine ⟨r2, hr2, hlim, ?_⟩
  rw [hused]
  norm_num [ruleEx]

/-! ## C7: override verification -/

/-- Claim C7: verifyOverride for a known user fails when no pending code
exists; fails and discards the pending code when its age exceeds the
expiry window; fails when the submitted code does not match; and on a
match installs an override for the pending code's domain expiring at
now + the configured duration, clearing the pending code and returning
the new override. -/
theorem verify_override_spec (ems dms : Int) (u : User) (otp : String) (now : Int) :
    (u.pendingOTP = none → verifyOtp ems dms u otp now = (u, .noPending)) ∧
    ∀ p : PendingOTP, u.pendingOTP = some p → p.otp ≠ "" →
      (ems < now - p.createdAt →
        verifyOtp ems dms u otp now = ({ u with pendingOTP := none }, .expired)) ∧
      (now - p.createdAt ≤ ems → p.otp ≠ otp →
        verifyOtp ems dms u otp now = (u, .invalidCode)) ∧
      (now - p.createdAt ≤ ems → p.otp = otp →
        verifyOtp ems dms u otp now =
          ({ u with
              activeUnlocks := u.activeUnlocks ++ [⟨p.domain, now + dms⟩]
              pendingOTP := none },
            .ok p.domain (now + dms))) := by
  constructor
  · intro hp
    unfold verifyOtp
    rw [hp]
  · intro p hp hne
    refine ⟨?_, ?_, ?_⟩
    · intro hexp
      unfold verifyOtp
      rw [hp]
      simp [hne, hexp]
    · intro hfresh hmis
      unfold verifyOtp
      rw [hp]
      simp [hne, not_lt.mpr hfresh, hmis]
    · intro hfresh hmatch
      have hone : otp ≠ "" := hmatch ▸ hne
      unfold verifyOtp
      rw [hp]
      simp [hne, hone, not_lt.mpr hfresh, hmatch]

/-- Witness for C7: a pending code issued at t = 100 and verified with
the right code at t = 1100 installs an unlock expiring at 1100 + 600000
and clears the pending code. -/
theorem verify_override_spec_witness :
    verifyOtp 300000 600000
        { userEx with pendingOTP := some ⟨otpEx, exampleCom, 100⟩ } otpEx 1100 =
      ({ userEx with activeUnlocks := [⟨exampleCom, 601100⟩], pendingOTP := none },
        .ok exampleCom 601100) := by
  have h := (verify_override_spec 300000 600000
      { userEx with pendingOTP := some ⟨otpEx, exampleCom, 100⟩ } otpEx 1100).2
    ⟨otpEx, exampleCom, 100⟩ rfl (by decide)
  have hmatch := h.2.2 (by decide) rfl
  simpa [userEx] using hmatch

/-! ## C8: idempotent override request -/

theorem heartbeat_email_eq (u : User) (domain : String) (secs : ℚ) (now : Int) :
    (heartbeat u domain secs now).email = u.email := by
  by_cases h : u.rules.any (ruleMatchesExact (normalizeDomain domain)) = true
  · simp [heartbeat, h]
  · simp [heartbeat, h]

theorem heartbeat_pending_eq (u : User) (domain : String) (secs : ℚ) (now : Int) :
    (heartbeat u domain secs now).pendingOTP = u.pendingOTP := by
  by_cases h : u.rules.any (ruleMatchesExact (normalizeDomain domain)) = true
  · simp [heartbeat, h]
  · simp [heartbeat, h]

theorem requestOtp_pending_email (expiryMs : Int) (newOtp : String) (emailOk : Bool)
    (u : User) (domain : String) (now : Int)
    (ih : u.pendingOTP.isSome → u.email.isSome) :
    (requestOtp expiryMs newOtp emailOk u domain now).1.pendingOTP.isSome →
      (requestOtp expiryMs newOtp emailOk u domain now).1.email.isSome := by
  unfold requestOtp
  cases he : u.email with
  | none => simpa [he] using ih
  | some e =>
    cases hp : u.pendingOTP with
    | none => simp [he]
    | some p =>
      by_cases hlt : now - p.createdAt < expiryMs
      · simp [he, hlt]
      · simp [he, hlt]

theorem verifyOtp_fst_cases (expiryMs durMs : Int) (u : User) (otp : String) (now : Int) :
    (verifyOtp expiryMs durMs u otp now).1 = u ∨
    (verifyOtp expiryMs durMs u otp now).1 = { u with pendingOTP := none } ∨
    ∃ dom exp, (verifyOtp expiryMs durMs u otp now).1 =
      { u with activeUnlocks := u.activeUnlocks ++ [⟨dom, exp⟩], pendingOTP := none } := by
  unfold verifyOtp
  cases hp : u.pendingOTP with
  | none => exact Or.inl rfl
  | some p =>
    dsimp only
    split_ifs
    · exact Or.inl rfl
    · exact Or.inr (Or.inl rfl)
    · exact Or.inl rfl
    · exact Or.inr (Or.inr ⟨p.domain, now + durMs, rfl⟩)

theorem verifyOtp_pending_email (expiryMs durMs : Int) (u : User) (otp : String) (now : Int)
    (ih : u.pendingOTP.isSome → u.email.isSome) :
    (verifyOtp expiryMs durMs u otp now).1.pendingOTP.isSome →
      (verifyOtp expiryMs durMs u otp now).1.email.isSome := by
  rcases verifyOtp_fst_cases expiryMs durMs u otp now with h | h | ⟨dom, exp, h⟩
  · rw [h]
    exact ih
  · rw [h]
    intro hs
    simp at hs
  · rw [h]
    intro hs
    simp at hs

/-- On every reachable user document, a pending override code implies a
configured email: the request handler stores a code only after the email
precondition passed, and the email is never removed. -/
theorem reachable_pending_email {u : User} (h : Reachable u) :
    u.pendingOTP.isSome → u.email.isSome := by
  induction h with
  | fresh now => simp [freshUser]
  | email e _ _ => simp [setEmail]
  | replace nrs now _ ih => exact fun hp => ih hp
  | hb domain secs now _ ih =>
    rw [heartbeat_pending_eq, heartbeat_email_eq]
    exact ih
  | cfg now _ ih => exact fun hp => ih hp
  | request expiryMs newOtp emailOk domain now _ ih =>
    exact requestOtp_pending_email _ _ _ _ _ _ ih
  | verify expiryMs durMs otp now _ ih =>
    exact verifyOtp_pending_email _ _ _ _ _ ih

/-- Claim C8: on any reachable user who holds a pending override code whose
age is within the expiry window, a further requestOverride call succeeds
with the idempotent resend response and leaves the user document — in
particular the stored code, its domain and creation time — completely
unchanged. -/
theorem request_idempotent_spec (expiryMs : Int) (newOtp : String) (emailOk : Bool)
    (u : User) (domain : String) (now : Int) (p : PendingOTP)
    (hreach : Reachable u) (hp : u.pendingOTP = some p)
    (hlive : now - p.createdAt < expiryMs) :
    requestOtp expiryMs newOtp emailOk u domain now = (u, .alreadySent) := by
  have hemail : u.email.isSome := reachable_pending_email hreach (by simp [hp])
  obtain ⟨e, he⟩ := Option.isSome_iff_exists.mp hemail
  unfold requestOtp
  rw [he, hp]
  simp [hlive]

/-- Witness for C8: a second request 100 ms after the code was issued is
answered with the resend response and changes nothing. -/
theorem request_idempotent_spec_witness :
    requestOtp 300000 otpEx true userPending newsExample 200 = (userPending, .alreadySent) := by
  have hreach : Reachable userPending :=
    Reachable.request 300000 otpEx true exampleCom 100
      (Reachable.email emailEx (Reachable.fresh 0))
  exact request_idempotent_spec 300000 otpEx true userPending newsExample 200
    ⟨otpEx, exampleCom, 100⟩ hreach rfl (by decide)

/-! ## C4: backoff under throttling -/

/-- Counterexample to C4 as stated: after N = 3 consecutive throttled
responses the hold expires 15000 ms after the response, which is below
the exponential claim's lower bound base * 2 ^ (N - 1) = 20000 ms (and
not min(base * 2 ^ N, cap) = 30000 ms): the code backs off linearly. -/
theorem backoff_exponential_counterexample :
    backoff3.consecutive429 = 3 ∧ backoff3.backoffUntil = 15000 ∧
    ¬ ((5000 * 2 ^ (3 - 1) : Int) ≤ backoff3.backoffUntil) ∧
    backoff3.backoffUntil ≠ min (5000 * 2 ^ 3) 30000 := by
  refine ⟨rfl, rfl, by decide, by decide⟩

theorem foldThrottle_consec (ts : List Int) :
    ∀ st : BackoffState, (foldThrottle st ts).consecutive429 = st.consecutive429 + ts.length := by
  induction ts with
  | nil => intro st; simp [foldThrottle]
  | cons t ts ih =>
    intro st
    have hstep : foldThrottle st (t :: ts) = foldThrottle (apiRequestBackoff st t 429) ts := rfl
    rw [hstep, ih]
    simp [apiRequestBackoff]
    omega

theorem foldThrottle_backoff_cons (ts : List Int) :
    ∀ (t : Int) (st : BackoffState),
      (foldThrottle st (t :: ts)).backoffUntil =
        (t :: ts).getLast (by simp) +
          Int.ofNat (min (5000 * (st.consecutive429 + ts.length + 1)) 30000) := by
  induction ts with
  | nil =>
    intro t st
    simp [foldThrottle, apiRequestBackoff, List.getLast]
  | cons t2 ts2 ih =>
    intro t st
    have hstep : foldThrottle st (t :: t2 :: ts2) =
        foldThrottle (apiRequestBackoff st t 429) (t2 :: ts2) := rfl
    rw [hstep, ih]
    have h1 : (apiRequestBackoff st t 429).consecutive429 = st.consecutive429 + 1 := by
      simp [apiRequestBackoff]
    rw [h1]
    have h2 : (t :: t2 :: ts2).getLast (by simp) = (t2 :: ts2).getLast (by simp) := by
      rw [List.getLast_cons]
    rw [h2]
    have h3 : st.consecutive429 + 1 + ts2.length + 1 = st.consecutive429 + (t2 :: ts2).length + 1 := by
      simp
      omega
    rw [h3]

theorem foldThrottle_backoff (ts : List Int) (hne : ts ≠ []) :
    ∀ st : BackoffState, (foldThrottle st ts).backoffUntil =
      ts.getLast hne + Int.ofNat (min (5000 * (st.consecutive429 + ts.length)) 30000) := by
  cases ts with
  | nil => exact absurd rfl hne
  | cons t ts =>
    intro st
    rw [foldThrottle_backoff_cons]
    have h3 : st.consecutive429 + ts.length + 1 = st.consecutive429 + (t :: ts).length := by
      simp
      omega
    rw [h3]

/-- Claim C4 amended: the backoff is linear, not exponential. After N
consecutive throttled responses from a fresh counter, the counter is N
and the hold expires min(5000 * N, 30000) ms after the last throttled
response; one subsequent successful (2xx) response resets the counter
and the hold to zero. -/
theorem backoff_linear_spec (st : BackoffState) (ts : List Int)
    (h0 : st.consecutive429 = 0) (hne : ts ≠ []) :
    (foldThrottle st ts).consecutive429 = ts.length ∧
    (foldThrottle st ts).backoffUntil =
      ts.getLast hne + Int.ofNat (min (5000 * ts.length) 30000) ∧
    ∀ t status, 200 ≤ status → status < 300 →
      apiRequestBackoff (foldThrottle st ts) t status = ⟨0, 0⟩ := by
  refine ⟨?_, ?_, ?_⟩
  · rw [foldThrottle_consec, h0, zero_add]
  · rw [foldThrottle_backoff ts hne, h0, zero_add]
  · intro t status hlo hhi
    have h429 : status ≠ 429 := by omega
    simp [apiRequestBackoff, h429, hlo, hhi]

/-- Witness for C4 amended: two 429 responses at times 0 and 1000 leave
counter 2 and a hold until 11000; a 200 response then clears both. -/
theorem backoff_linear_spec_witness :
    (foldThrottle ⟨0, 0⟩ [0, 1000]).consecutive429 = 2 ∧
    (foldThrottle ⟨0, 0⟩ [0, 1000]).backoffUntil = 11000 ∧
    apiRequestBackoff (foldThrottle ⟨0, 0⟩ [0, 1000]) 11200 200 = ⟨0, 0⟩ := by
  have h := backoff_linear_spec ⟨0, 0⟩ [0, 1000] rfl (by simp)
  refine ⟨h.1, ?_, h.2.2 11200 200 (by omega) (by omega)⟩
  rw [h.2.1]
  rfl

/-! ## C5: local blocking decision -/

/-- Counterexample to C5 as stated: visiting example.com whose matched
rule has the block flag set but dailyLimit = 0, checkLocalRules does not
block — the whole decision sits behind a dailyLimit > 0 guard, so the
block flag is not honoured regardless of the limit. -/
theorem local_block_counterexample :
    ([blockedNoLimitRule].find? (localRuleMatches (normalizeDomain exampleCom))
      = some blockedNoLimitRule) ∧
    blockedNoLimitRule.block = true ∧
    checkLocalRules exampleCom [blockedNoLimitRule] = false := by
  refine ⟨by decide, rfl, by decide⟩

/-- Claim C5 amended: checkLocalRules blocks exactly when the first matching
rule of the snapshot has dailyLimitMinutes > 0 and (its block flag is
set or usedTodayMinutes has reached dailyLimitMinutes); a rule whose
block flag is set but whose dailyLimit is 0 is not blocked locally. The
check is a pure function of the snapshot, with no network involved. -/
theorem local_block_spec (currentDomain : String) (rules : List LocalRule) :
    checkLocalRules currentDomain rules = true ↔
      ∃ r : LocalRule,
        rules.find? (localRuleMatches (normalizeDomain currentDomain)) = some r ∧
        0 < r.dailyLimit ∧ (r.block = true ∨ r.dailyLimit ≤ r.usedToday) := by
  unfold checkLocalRules
  by_cases hempty : rules.isEmpty
  · have : rules = [] := List.isEmpty_iff.mp hempty
    subst this
    simp
  · simp only [hempty, Bool.false_eq_true, if_false]
    cases hf : rules.find? (localRuleMatches (normalizeDomain currentDomain)) with
    | none => simp
    | some r =>
      by_cases hlim : 0 < r.dailyLimit
      · simp only [hlim, if_true, Bool.or_eq_true, decide_eq_true_eq,
          Option.some.injEq]
        constructor
        · intro h
          exact ⟨r, rfl, hlim, h⟩
        · rintro ⟨r2, hr2, -, h2⟩
          subst hr2
          exact h2
      · simp only [hlim, if_false, Bool.false_eq_true, false_iff, not_exists]
        rintro r2 ⟨hr2, h2, -⟩
        rw [Option.some_inj] at hr2
        subst hr2
        exact hlim h2

/-! ## C9: minimum interval between decision requests -/

theorem applyResp_lastRequest (st : EngineState) (now : Int) (o : RespOutcome) :
    (applyResp st now o).lastRequestTime = st.lastRequestTime := by
  cases o <;> rfl

theorem step_none_state {st : EngineState} {tr : Trigger} {st1 : EngineState}
    (h : checkAndBlockStep st tr = (st1, none)) : st1 = st := by
  unfold checkAndBlockStep at h
  split_ifs at h <;> simp_all

theorem step_some {st : EngineState} {tr : Trigger} {st1 : EngineState} {t : Int}
    (h : checkAndBlockStep st tr = (st1, some t)) :
    t = tr.now ∧ st1.lastRequestTime = tr.now ∧
      st.lastRequestTime + MIN_REQUEST_INTERVAL ≤ tr.now := by
  unfold checkAndBlockStep at h
  split_ifs at h with h1 h2 h3 h4
  · simp_all
  · simp_all
  · simp_all
  · simp_all
  · have ht : t = tr.now := by
      have := congrArg Prod.snd h
      simp at this
      exact this.symm
    have hst : st1 = applyResp { st with lastRequestTime := tr.now } tr.now tr.resp := by
      have := congrArg Prod.fst h
      simpa using this.symm
    refine ⟨ht, ?_, by omega⟩
    rw [hst, applyResp_lastRequest]

/-- Every issued request time is at least MIN_REQUEST_INTERVAL past the
state's last request time, and the issued times are pairwise at least
MIN_REQUEST_INTERVAL apart. -/
theorem engineRun_issued_spaced (trs : List Trigger) :
    ∀ st : EngineState,
      (∀ t ∈ (engineRun st trs).2, st.lastRequestTime + MIN_REQUEST_INTERVAL ≤ t) ∧
      List.Pairwise (fun a b => a + MIN_REQUEST_INTERVAL ≤ b) (engineRun st trs).2 := by
  induction trs with
  | nil =>
    intro st
    simp [engineRun]
  | cons tr trs ih =>
    intro st
    cases hstep : checkAndBlockStep st tr with
    | mk st1 o =>
      cases o with
      | none =>
        have hst : st1 = st := step_none_state hstep
        have hrun : engineRun st (tr :: trs) = engineRun st1 trs := by
          simp only [engineRun, hstep]
        rw [hrun, hst]
        exact ih st
      | some t =>
        obtain ⟨ht, hlrt, hge⟩ := step_some hstep
        have hrun : engineRun st (tr :: trs) =
            ((engineRun st1 trs).1, t :: (engineRun st1 trs).2) := by
          simp only [engineRun, hstep]
        obtain ⟨ihall, ihpw⟩ := ih st1
        rw [hrun]
        have hmin : (0 : Int) ≤ MIN_REQUEST_INTERVAL := by decide
        constructor
        · intro s hs
          simp only [List.mem_cons] at hs
          rcases hs with hs | hs
          · subst hs
            rw [ht]
            exact hge
          · have h2 := ihall s hs
            rw [hlrt] at h2
            omega
        · refine List.Pairwise.cons ?_ ihpw
          intro s hs
          have h2 := ihall s hs
          rw [hlrt] at h2
          rw [ht]
          omega

/-- Claim C9: starting from any engine state, no two Decision Endpoint
requests issued by any sequence of triggers are within
MIN_REQUEST_INTERVAL of each other; moreover any single trigger arriving
less than MIN_REQUEST_INTERVAL after the last issued request is answered
without a network request. -/
theorem engine_min_interval_spec (st : EngineState) (trs : List Trigger) :
    List.Pairwise (fun a b => a + MIN_REQUEST_INTERVAL ≤ b) (engineRun st trs).2 ∧
    ∀ tr : Trigger, tr.now - st.lastRequestTime < MIN_REQUEST_INTERVAL →
      (checkAndBlockStep st tr).2 = none := by
  refine ⟨(engineRun_issued_spaced trs st).2, ?_⟩
  intro tr hlt
  unfold checkAndBlockStep
  split_ifs <;> simp_all

/-- Witness for C9: a trigger 500 ms after the last issued request makes
no network call, and a burst of four triggers 500 ms apart issues
requests spaced at least 2000 ms apart. -/
theorem engine_min_interval_spec_witness :
    (checkAndBlockStep ⟨1000, 0, 0, false, 0⟩ ⟨1500, false, .okResp⟩).2 = none ∧
    List.Pairwise (fun a b => a + MIN_REQUEST_INTERVAL ≤ b)
      (engineRun ⟨0, 0, 0, false, 0⟩
        [⟨2000, false, .errResp⟩, ⟨2500, false, .errResp⟩,
         ⟨3000, false, .errResp⟩, ⟨4000, false, .errResp⟩]).2 := by
  constructor
  · exact (engine_min_interval_spec ⟨1000, 0, 0, false, 0⟩ []).2 ⟨1500, false, .okResp⟩ (by decide)
  · exact (engine_min_interval_spec ⟨0, 0, 0, false, 0⟩
      [⟨2000, false, .errResp⟩, ⟨2500, false, .errResp⟩,
       ⟨3000, false, .errResp⟩, ⟨4000, false, .errResp⟩]).1

end Zone
